import Mathlib

/-!
Verification of the task-collection consistency engine of a todo
application (React + supabase + Gemini assistant).

The embedding below translates the relevant source functions:
- `src/features/todos/api.ts` (zod validation, supabase writes),
- `src/features/todos/TodoPage.tsx` (`handleDragEnd`,
  `handleApplyOptimize`, `filteredTodos`),
- `src/features/ai/AIPanel.tsx` (`handleApplyOptimize` item mapping),
- `src/features/ai/aiService.ts` (`parseJson`, `parseNaturalLanguageTodo`,
  `getDailyBrief`, `getOptimizedPlan`).

JavaScript strings are embedded as `List Char` (code points).  Side
effects on the remote store are embedded as explicit lists of gateway
write operations; fallible calls return `Except`/`Option`.
-/

namespace TodoApp

/-! ### JavaScript string primitives -/

/-- JavaScript whitespace (`\s` and `String.prototype.trim`): the common
ASCII whitespace plus NBSP and BOM.  (Exotic Unicode space separators are
not used anywhere in this development.) -/
def jsWs (c : Char) : Bool :=
  c = ' ' || c = '\t' || c = '\n' || c = '\r' || c = '\x0b' || c = '\x0c' ||
  c = ' ' || c = '﻿'

/-- Leading-whitespace removal, as in the left half of `trim()`. -/
def trimLeftL (l : List Char) : List Char := l.dropWhile jsWs

/-- Trailing-whitespace removal, as in the right half of `trim()`. -/
def trimRightL (l : List Char) : List Char := (l.reverse.dropWhile jsWs).reverse

/-- `String.prototype.trim()`. -/
def trimL (l : List Char) : List Char := trimLeftL (trimRightL l)

/-- `String.prototype.trim()` on Lean strings (used for todo titles). -/
def jsTrim (s : String) : String := ⟨trimL s.data⟩

/-- `String.prototype.toLowerCase()` restricted to the ASCII range
(`Char.toLower`); all titles and queries in this development are ASCII. -/
def lowerL (l : List Char) : List Char := l.map Char.toLower

/-- `a.includes(b)`: substring test, scanning left to right. -/
def jsIncludes : List Char → List Char → Bool
  | hay, needle =>
    needle.isPrefixOf hay ||
      match hay with
      | [] => false
      | _ :: t => jsIncludes t needle

/-- The specification-side notion of "contains as a substring". -/
def SubstrOf (needle hay : List Char) : Prop :=
  ∃ p q, hay = p ++ needle ++ q

/-! ### JavaScript values and `JSON.parse`

`aiService.ts` decodes model responses with `JSON.parse`.  We model the
JSON value universe (numbers restricted to integers, the only numeric
shape this application produces or consumes) together with `undefined`,
which field access on a missing key yields. -/

inductive JVal : Type where
  | undefined : JVal
  | jnull : JVal
  | jbool : Bool → JVal
  | jnum : Int → JVal
  | jstr : List Char → JVal
  | jarr : List JVal → JVal
  | jobj : List (List Char × JVal) → JVal

/-- JavaScript truthiness (`Boolean(v)`, `if (v)`, `v || d`). -/
def jsTruthy : JVal → Bool
  | .undefined => false
  | .jnull => false
  | .jbool b => b
  | .jnum n => n ≠ 0
  | .jstr s => s ≠ []
  | .jarr _ => true
  | .jobj _ => true

/-- `Array.isArray(v)`. -/
def isJArr : JVal → Bool
  | .jarr _ => true
  | _ => false

/-- Last-wins association lookup, matching the effect of duplicate keys
in `JSON.parse` object literals. -/
def jfieldGet : List (List Char × JVal) → List Char → JVal
  | [], _ => .undefined
  | (k, v) :: rest, key =>
    match jfieldGet rest key with
    | .undefined => if k = key then v else .undefined
    | r => r

/-- JavaScript property read `v[key]`: `undefined` off objects. -/
def jsGet (v : JVal) (key : List Char) : JVal :=
  match v with
  | .jobj fs => jfieldGet fs key
  | _ => .undefined

/-- JSON insignificant whitespace. -/
def jsonWs (c : Char) : Bool := c = ' ' || c = '\t' || c = '\n' || c = '\r'

def skipJsonWs (l : List Char) : List Char := l.dropWhile jsonWs

def isHexDig (c : Char) : Bool :=
  ('0' ≤ c && c ≤ '9') || ('a' ≤ c && c ≤ 'f') || ('A' ≤ c && c ≤ 'F')

def hexVal (c : Char) : Nat :=
  if '0' ≤ c && c ≤ '9' then c.toNat - '0'.toNat
  else if 'a' ≤ c && c ≤ 'f' then c.toNat - 'a'.toNat + 10
  else c.toNat - 'A'.toNat + 10

def isDigitC (c : Char) : Bool := '0' ≤ c && c ≤ '9'

def digitsToNat (ds : List Char) : Nat :=
  ds.foldl (fun acc c => acc * 10 + (c.toNat - '0'.toNat)) 0

/-- Lex a JSON string body (after the opening quote), handling the
escape sequences of the JSON grammar. -/
def lexJsonStr : List Char → Option (List Char × List Char)
  | [] => none
  | '"' :: rest => some ([], rest)
  | '\\' :: e :: rest =>
    match e with
    | '"' => (lexJsonStr rest).map (fun (s, r) => ('"' :: s, r))
    | '\\' => (lexJsonStr rest).map (fun (s, r) => ('\\' :: s, r))
    | '/' => (lexJsonStr rest).map (fun (s, r) => ('/' :: s, r))
    | 'b' => (lexJsonStr rest).map (fun (s, r) => ('\x08' :: s, r))
    | 'f' => (lexJsonStr rest).map (fun (s, r) => ('\x0c' :: s, r))
    | 'n' => (lexJsonStr rest).map (fun (s, r) => ('\n' :: s, r))
    | 'r' => (lexJsonStr rest).map (fun (s, r) => ('\r' :: s, r))
    | 't' => (lexJsonStr rest).map (fun (s, r) => ('\t' :: s, r))
    | 'u' =>
      match rest with
      | a :: b :: c :: d :: rest' =>
        if isHexDig a && isHexDig b && isHexDig c && isHexDig d then
          (lexJsonStr rest').map (fun (s, r) =>
            (Char.ofNat (((hexVal a * 16 + hexVal b) * 16 + hexVal c) * 16 + hexVal d) :: s, r))
        else none
      | _ => none
    | _ => none
  | c :: rest =>
    if c.toNat < 32 then none
    else (lexJsonStr rest).map (fun (s, r) => (c :: s, r))

/-- Lex a JSON number (integer fragment: optional minus, no leading
zeros, no fraction/exponent — the shapes this application exchanges). -/
def lexJsonNum (l : List Char) : Option (Int × List Char) :=
  let (neg, l') := match l with
    | '-' :: r => (true, r)
    | _ => (false, l)
  let ds := l'.takeWhile isDigitC
  let rest := l'.dropWhile isDigitC
  if ds = [] then none
  else if ds.length > 1 && ds.headD '0' = '0' then none
  else match rest with
    | '.' :: _ => none
    | 'e' :: _ => none
    | 'E' :: _ => none
    | _ =>
      let n : Int := Int.ofNat (digitsToNat ds)
      some (if neg then -n else n, rest)

mutual

/-- Recursive-descent JSON value parser (fuel-indexed). -/
def parseJVal : Nat → List Char → Option (JVal × List Char)
  | 0, _ => none
  | Nat.succ fuel, l =>
    match skipJsonWs l with
    | 'n' :: 'u' :: 'l' :: 'l' :: rest => some (.jnull, rest)
    | 't' :: 'r' :: 'u' :: 'e' :: rest => some (.jbool true, rest)
    | 'f' :: 'a' :: 'l' :: 's' :: 'e' :: rest => some (.jbool false, rest)
    | '"' :: rest => (lexJsonStr rest).map (fun (s, r) => (.jstr s, r))
    | '[' :: rest =>
      (match skipJsonWs rest with
       | ']' :: rest' => some (.jarr [], rest')
       | _ => (parseJArrItems fuel rest).map (fun (xs, r) => (.jarr xs, r)))
    | '{' :: rest =>
      (match skipJsonWs rest with
       | '}' :: rest' => some (.jobj [], rest')
       | _ => (parseJObjItems fuel rest).map (fun (fs, r) => (.jobj fs, r)))
    | l' => lexJsonNum l' |>.map (fun (n, r) => (.jnum n, r))

/-- Comma-separated array elements, up to the closing bracket. -/
def parseJArrItems : Nat → List Char → Option (List JVal × List Char)
  | 0, _ => none
  | Nat.succ fuel, l => do
    let (v, rest) ← parseJVal fuel l
    match skipJsonWs rest with
    | ',' :: rest' =>
      (parseJArrItems fuel rest').map (fun (xs, r) => (v :: xs, r))
    | ']' :: rest' => some ([v], rest')
    | _ => none

/-- Comma-separated object members, up to the closing brace. -/
def parseJObjItems : Nat → List Char → Option (List (List Char × JVal) × List Char)
  | 0, _ => none
  | Nat.succ fuel, l =>
    match skipJsonWs l with
    | '"' :: rest => do
      let (k, rest₁) ← lexJsonStr rest
      match skipJsonWs rest₁ with
      | ':' :: rest₂ => do
        let (v, rest₃) ← parseJVal fuel rest₂
        match skipJsonWs rest₃ with
        | ',' :: rest₄ =>
          (parseJObjItems fuel rest₄).map (fun (fs, r) => ((k, v) :: fs, r))
        | '}' :: rest₄ => some ([(k, v)], rest₄)
        | _ => none
      | _ => none
    | _ => none

end

/-- `JSON.parse`: whole-input parse, rejecting trailing garbage. -/
def jsonParse (l : List Char) : Option JVal :=
  match parseJVal (2 * l.length + 2) l with
  | some (v, rest) => if skipJsonWs rest = [] then some v else none
  | none => none

/-! ### `aiService.ts`: response decoding

```ts
function parseJson<T>(raw: string): T {
  const cleaned = raw.replace(/^```json\s*|\s*```$/g, "").trim();
  return JSON.parse(cleaned) as T;
}
```

The `g`-scan of the alternation finds at most two matches: the anchored
`^```json\s*` at position 0 (the literal opener followed by the maximal
whitespace run), and the leftmost `\s*```$` (a trailing ` ``` ` together
with the maximal whitespace run immediately before it).  `cleanFence`
performs exactly these removals, then the final `.trim()`. -/

def stripJsonOpenFence (l : List Char) : List Char :=
  if "```json".data.isPrefixOf l then trimLeftL (l.drop 7) else l

def stripCloseFence (l : List Char) : List Char :=
  if "```".data.isSuffixOf l then trimRightL (l.take (l.length - 3)) else l

def cleanFence (l : List Char) : List Char :=
  trimL (stripCloseFence (stripJsonOpenFence l))

/-- `parseJson` from `aiService.ts`: fence stripping, then `JSON.parse`
(`none` models the `SyntaxError` throw). -/
def parseJson (raw : List Char) : Option JVal :=
  jsonParse (cleanFence raw)

/-- A response wrapped in a markdown ` ```json ` code fence. -/
def wrapJsonFence (s : List Char) : List Char :=
  "```json\n".data ++ s ++ "\n```".data

/-- A response wrapped in a plain ` ``` ` code fence (no language tag). -/
def wrapPlainFence (s : List Char) : List Char :=
  "```\n".data ++ s ++ "\n```".data

/-! ### `parseNaturalLanguageTodo`: decoded-object fallback policy

```ts
const parsed = parseJson<ParsedTodo>(text);
if (!parsed.title || !Array.isArray(parsed.tags)) {
  parsed.title = parsed.title || userInput.slice(0, 200);
  parsed.tags = Array.isArray(parsed.tags) ? parsed.tags : [];
}
parsed.due_at = parsed.due_at || null;
parsed.remind = Boolean(parsed.remind);
return parsed;
```
-/

/-- The object returned by the single-task parse path: the mutated
decoded object, with `remind` coerced to a boolean. -/
structure AdaptedTodo where
  title : JVal
  tags : JVal
  due_at : JVal
  remind : Bool

def adaptParsed (userInput : List Char) (parsed : JVal) : AdaptedTodo :=
  let title0 := jsGet parsed "title".data
  let tags0 := jsGet parsed "tags".data
  let fixed :=
    if !jsTruthy title0 || !isJArr tags0 then
      ((if jsTruthy title0 then title0 else .jstr (userInput.take 200)),
       (if isJArr tags0 then tags0 else .jarr []))
    else (title0, tags0)
  { title := fixed.1
    tags := fixed.2
    due_at :=
      let d := jsGet parsed "due_at".data
      if jsTruthy d then d else .jnull
    remind := jsTruthy (jsGet parsed "remind".data) }

/-- `parseNaturalLanguageTodo` after the generation call returned
`responseText`: decode, then apply the fallback policy. -/
def parseNaturalLanguageTodo (userInput responseText : List Char) :
    Option AdaptedTodo :=
  (parseJson responseText).map (adaptParsed userInput)

/-! ### Task Record (`TodoSchema` in `api.ts`) -/

structure Todo where
  id : String
  title : String
  completed : Bool
  created_at : String
  user_id : String
  due_at : Option String
  remind : Bool
  reminded : Bool
  tags : Option (List String)
  order : Int
deriving DecidableEq

/-! ### `getDailyBrief` and `getOptimizedPlan` (aiService.ts)

Each function first decides whether to short-circuit with a canned
response; only the other branch performs the external generation call.
The outcome type records which branch was taken and, in the call branch,
the prompt that would be sent. -/

structure OptimizedItem where
  id : String
  title : String
  suggested_order : Int
  suggested_due_at : Option String
  suggested_remind : Bool
  reason : Option String
deriving DecidableEq

structure OptimizedPlan where
  summary : String
  items : List OptimizedItem
deriving DecidableEq

/-- `BRIEF_PROMPT` (string construction; `âœ“` is the checkmark byte
sequence as it appears in the source file). -/
def briefPrompt (todos : List Todo) : String :=
  let lines := todos.map (fun t =>
    let due := match t.due_at with
      | some d => " (due " ++ d ++ ")"
      | none => ""
    let tags := match t.tags with
      | some (tag :: more) => " [" ++ String.intercalate ", " (tag :: more) ++ "]"
      | _ => ""
    "- " ++ t.title ++ due ++ tags ++ " " ++ (if t.completed then "âœ“" else ""))
  "You are a helpful daily brief assistant. Given this todo list, write a very short \"Your day in 60 seconds\" brief (2-4 sentences max). Mention: how many tasks total, what's most urgent or overdue, one suggested focus for today. Be concise and friendly. Do NOT return JSON, just plain text.\n\nTodo list:\n"
    ++ String.intercalate "\n" lines ++ "\n\nBrief:"

/-- `getOptimizePrompt` (string construction; `today` is the
`new Date().toISOString().slice(0, 10)` value, passed explicitly). -/
def optimizePrompt (today : String) (todos : List Todo) : String :=
  let lines := ((todos.filter (fun t => !t.completed)).enum).map (fun p =>
    let t := p.2
    let due := match t.due_at with
      | some d => " due " ++ d
      | none => ""
    toString (p.1 + 1) ++ ". id: " ++ t.id ++ " | " ++ t.title ++ due)
  "You are a productivity assistant. Today is " ++ today ++ ". Given this list of INCOMPLETE todos (with ids), return an optimized plan: suggested order, suggested due dates if missing, and suggest remind true/false for each.\n\nRules:\n- Return ONLY valid JSON, no markdown or extra text.\n- Shape: \x7b\"summary\":\"one sentence\",\"items\":[\x7b\"id\":\"<todo uuid>\",\"title\":\"string\",\"suggested_order\":1,\"suggested_due_at\":\"YYYY-MM-DD or null\",\"suggested_remind\":true,\"reason\":\"short reason\"\x7d]\x7d\n- suggested_order: 1-based (1 = do first). Consider urgency and due dates.\n- suggested_due_at: suggest " ++ today ++ " or a near date if the todo has none and seems time-sensitive; else null.\n- suggested_remind: true for time-sensitive or due tasks.\n- Include every incomplete todo in items with same id and title; reorder and add suggestions.\n- summary: one short sentence.\n\nIncomplete todos:\n"
    ++ String.intercalate "\n" lines ++ "\n\nJSON:"

inductive BriefOutcome : Type where
  | canned : String → BriefOutcome
  | requestsService : String → BriefOutcome
deriving DecidableEq

inductive PlanOutcome : Type where
  | canned : OptimizedPlan → PlanOutcome
  | requestsService : String → PlanOutcome
deriving DecidableEq

/-- `getDailyBrief`, up to its suspension point: empty collections
short-circuit with the canned message; otherwise the generation service
is called with `BRIEF_PROMPT(todos)`. -/
def getDailyBrief (todos : List Todo) : BriefOutcome :=
  if todos.length = 0 then .canned "No tasks yet. Add some to get your daily brief!"
  else .requestsService (briefPrompt todos)

/-- `getOptimizedPlan`, up to its suspension point: a collection with no
incomplete records short-circuits with an empty-items plan; otherwise the
generation service is called with `getOptimizePrompt(todos)`. -/
def getOptimizedPlan (today : String) (todos : List Todo) : PlanOutcome :=
  let incomplete := todos.filter (fun t => !t.completed)
  if incomplete.length = 0 then
    .canned { summary := "All done! No tasks to optimize.", items := [] }
  else .requestsService (optimizePrompt today todos)

/-! ### Filter Pipeline (`filteredTodos` in `TodoPage.tsx`)

```ts
const filteredTodos = todos?.filter((todo) => {
  if (filter === "active" && todo.completed) return false;
  if (filter === "completed" && !todo.completed) return false;
  if (searchQuery && !todo.title.toLowerCase().includes(searchQuery.toLowerCase()))
    return false;
  if (selectedTag && (!todo.tags || !todo.tags.includes(selectedTag)))
    return false;
  return true;
});
```
-/

inductive StatusFilter : Type where
  | all | active | completed
deriving DecidableEq

/-- The search check of the filter predicate. -/
def searchMatches (query title : String) : Bool :=
  jsIncludes (lowerL title.data) (lowerL query.data)

/-- The per-record filter predicate, transcribing the early-return
chain.  `selectedTag : Option String` models `string | null`; JavaScript
truthiness of the query and the tag is the non-empty test. -/
def todoPasses (filter : StatusFilter) (searchQuery : String)
    (selectedTag : Option String) (todo : Todo) : Bool :=
  if filter = .active && todo.completed then false
  else if filter = .completed && !todo.completed then false
  else if searchQuery ≠ "" && !searchMatches searchQuery todo.title then false
  else if (match selectedTag with
           | some tag => tag ≠ "" &&
               (match todo.tags with
                | none => true
                | some tags => !tags.contains tag)
           | none => false) then false
  else true

def filteredTodos (filter : StatusFilter) (searchQuery : String)
    (selectedTag : Option String) (todos : List Todo) : List Todo :=
  todos.filter (todoPasses filter searchQuery selectedTag)

/-! ### Ordering Engine (`handleDragEnd` in `TodoPage.tsx`)

```ts
if (over && active.id !== over.id && filteredTodos) {
  const oldIndex = filteredTodos.findIndex((t) => t.id === active.id);
  const newIndex = filteredTodos.findIndex((t) => t.id === over.id);
  const newOrder = arrayMove(filteredTodos, oldIndex, newIndex);
  const updates = newOrder.map((todo, index) => ({ id: todo.id, order: index }));
  reorder.mutate(updates);
}
```
-/

/-- `splice(i, 1)`: remove the element at index `i` (no-op past the
end, as with JavaScript `splice`). -/
def spliceRemove (l : List α) (i : Nat) : List α :=
  l.take i ++ l.drop (i + 1)

/-- `splice(j, 0, x)`: insert `x` at index `j` (clamped to the length,
as with JavaScript `splice`). -/
def spliceInsert (l : List α) (j : Nat) (x : α) : List α :=
  l.take j ++ x :: l.drop j

/-- dnd-kit `arrayMove`: relocate the element at `from` to index `to`.
The claims only exercise in-range indices; an out-of-range `from` (which
in JavaScript would splice in `undefined`) is modelled as a plain
removal. -/
def arrayMove (l : List α) (i j : Nat) : List α :=
  match l.get? i with
  | some x => spliceInsert (spliceRemove l i) j x
  | none => spliceRemove l i

/-- The bulk payload issued by one completed drag gesture over the
current filtered view (`none` when the guard `active.id !== over.id`
suppresses the write). -/
def dragEndUpdates (view : List Todo) (activeId overId : String) :
    Option (List (String × Int)) :=
  if activeId = overId then none
  else
    let oldIndex := view.findIdx (fun t => t.id == activeId)
    let newIndex := view.findIdx (fun t => t.id == overId)
    let newOrder := arrayMove view oldIndex newIndex
    some (newOrder.enum.map (fun p => (p.2.id, (p.1 : Int))))

/-! ### Synchronized Collection Store mutations (`api.ts`)

Each mutation is embedded as the pure computation of the gateway write
operations it performs: validation failures abort with a
`ValidationError` before any operation is emitted, the missing-principal
case aborts with `NotAuthenticated`. -/

/-- A single write against the remote collection gateway: one supabase
statement each. -/
inductive GatewayOp : Type where
  | insertRow : (title : String) → (user_id : String) →
      (due_at : Option String) → (remind : Bool) → (tags : List String) → GatewayOp
  | updateFieldsRow : (id : String) → (completed : Option Bool) →
      (title : Option String) → (due_at : Option (Option String)) →
      (remind : Option Bool) → (reminded : Option Bool) →
      (tags : Option (List String)) → (order : Option Int) → GatewayOp
  | updateCompletedRow : (id : String) → (completed : Bool) → GatewayOp
  | updateOrderRow : (id : String) → (order : Int) → GatewayOp
  | deleteRow : (id : String) → GatewayOp
deriving DecidableEq

inductive ApiError : Type where
  | validation
  | notAuthenticated
deriving DecidableEq

/-- `z.string().uuid()`: canonical 8-4-4-4-12 hexadecimal shape. -/
def isUuid (s : String) : Bool :=
  s.data.length = 36 &&
    s.data.enum.all (fun p =>
      if p.1 = 8 || p.1 = 13 || p.1 = 18 || p.1 = 23 then p.2 = '-'
      else isHexDig p.2)

/-- `CreateTodoInput`: `due_at?: string | null` is a doubly optional
field (`none` = absent, `some none` = explicit null). -/
structure CreateInput where
  title : String
  due_at : Option (Option String)
  remind : Option Bool
  tags : Option (List String)
deriving DecidableEq

/-- `CreateTodoSchema`: title non-empty and at most 200 code points. -/
def validCreate (input : CreateInput) : Bool :=
  1 ≤ input.title.length && input.title.length ≤ 200

/-- The stored-record title constraint of `TodoSchema`
(`z.string().min(1).max(200)`). -/
def validStoredTitle (t : String) : Bool :=
  1 ≤ t.length && t.length ≤ 200

/-- `UpdateTodoInput`. -/
structure UpdateInput where
  id : String
  completed : Option Bool
  title : Option String
  due_at : Option (Option String)
  remind : Option Bool
  reminded : Option Bool
  tags : Option (List String)
  order : Option Int
deriving DecidableEq

/-- `UpdateTodoSchema`: uuid id; when a title is supplied it obeys the
title bounds. -/
def validUpdate (input : UpdateInput) : Bool :=
  isUuid input.id &&
    (match input.title with
     | some t => 1 ≤ t.length && t.length ≤ 200
     | none => true)

/-- `input.due_at || null`: absent, null and the empty string (all
falsy) coerce to null. -/
def jsOrNull : Option (Option String) → Option String
  | some (some s) => if s = "" then none else some s
  | _ => none

/-- `createTodo`: validate, resolve the principal, then insert with the
title trimmed and the optional fields defaulted (`|| false`, `|| []`). -/
def createTodo (owner : Option String) (input : CreateInput) :
    Except ApiError (List GatewayOp) :=
  if validCreate input then
    match owner with
    | none => .error .notAuthenticated
    | some uid =>
      .ok [.insertRow (jsTrim input.title) uid (jsOrNull input.due_at)
            (input.remind.getD false) (input.tags.getD [])]
  else .error .validation

/-- `updateTodo`: validate, then one field update. -/
def updateTodo (input : UpdateInput) : Except ApiError (List GatewayOp) :=
  if validUpdate input then
    .ok [.updateFieldsRow input.id input.completed input.title input.due_at
          input.remind input.reminded input.tags input.order]
  else .error .validation

/-- `toggleTodo`: validate the id, then one completed-flag update. -/
def toggleTodo (id : String) (completed : Bool) :
    Except ApiError (List GatewayOp) :=
  if isUuid id then .ok [.updateCompletedRow id completed]
  else .error .validation

/-- `deleteTodo`: validate the id, then one delete. -/
def deleteTodo (id : String) : Except ApiError (List GatewayOp) :=
  if isUuid id then .ok [.deleteRow id] else .error .validation

/-- `reorderTodos`: one `update({ order }).eq("id", ...)` statement per
element of the payload, with no validation (`Promise.all` of the
individual writes). -/
def reorderTodos (updates : List (String × Int)) :
    Except ApiError (List GatewayOp) :=
  .ok (updates.map (fun p => .updateOrderRow p.1 p.2))

/-- The effect of the reorder payload on the collection: each targeted
record receives the new `order`, all other fields and records are
untouched (row-level `update` sets only the supplied column). -/
def applyOrderUpdates (todos : List Todo) (updates : List (String × Int)) :
    List Todo :=
  todos.map (fun t =>
    match updates.lookup t.id with
    | some o => { t with order := o }
    | none => t)

/-! ### Plan Merge Engine

`AIPanel.tsx` turns the optimized plan into partial updates:

```ts
optimizedPlan.items.map((item) => ({
  id: item.id,
  order: item.suggested_order - 1,
  due_at: item.suggested_due_at ?? undefined,
  remind: item.suggested_remind,
}))
```

`TodoPage.tsx` then merges them (`handleApplyOptimize`):

```ts
if (!todos?.length) return;
const incompleteIds = updates.map((u) => u.id);
const completed = todos.filter((t) => t.completed);
const completedIds = completed.map((t) => t.id);
const orderUpdates = [
  ...updates.sort((a, b) => (a.order ?? 0) - (b.order ?? 0))
            .map((u) => ({ id: u.id, order: u.order ?? 0 })),
  ...completedIds.map((id, i) => ({ id, order: incompleteIds.length + i })),
];
await reorder.mutateAsync(orderUpdates);
```

`Array.prototype.sort` with the numeric comparator is the stable
ascending sort by `order ?? 0`; it is embedded as `List.insertionSort`,
which is that sort. -/

structure PlanUpdate where
  id : String
  order : Option Int
  due_at : Option (Option String)
  remind : Option Bool
deriving DecidableEq

/-- The `AIPanel` mapping from plan items to partial updates. -/
def aiPanelUpdates (items : List OptimizedItem) : List PlanUpdate :=
  items.map (fun it =>
    { id := it.id
      order := some (it.suggested_order - 1)
      due_at := (it.suggested_due_at.map some).getD none
      remind := some it.suggested_remind })

/-- `a.order ?? 0`, the sort key and the written order value. -/
def planKey (u : PlanUpdate) : Int := u.order.getD 0

/-- The bulk order payload built by `handleApplyOptimize`. -/
def applyOptimizeOrders (todos : List Todo) (updates : List PlanUpdate) :
    List (String × Int) :=
  if todos.length = 0 then []
  else
    let incompleteIds := updates.map PlanUpdate.id
    let completedIds := (todos.filter (fun t => t.completed)).map Todo.id
    (updates.insertionSort (fun a b => planKey a ≤ planKey b)).map
        (fun u => (u.id, planKey u))
      ++ completedIds.enum.map (fun p => (p.2, (incompleteIds.length : Int) + p.1))

/-! ### Example records used by witnesses and counterexamples -/

def mkTodo (id title : String) (completed : Bool) (order : Int) : Todo :=
  { id := id, title := title, completed := completed, created_at := "2024-06-01",
    user_id := "11111111-2222-3333-4444-555555555555", due_at := none,
    remind := false, reminded := false, tags := none, order := order }

def exView : List Todo :=
  [mkTodo "a" "alpha" false 0, mkTodo "b" "beta" false 1, mkTodo "c" "gamma" false 2]

def exPlanTodos : List Todo :=
  [mkTodo "a" "alpha" false 5, mkTodo "b" "beta" false 7, mkTodo "c" "gamma" true 0]

def exPlanItems : List OptimizedItem :=
  [{ id := "b", title := "beta", suggested_order := 1, suggested_due_at := none,
     suggested_remind := false, reason := none },
   { id := "a", title := "alpha", suggested_order := 2, suggested_due_at := none,
     suggested_remind := true, reason := none }]

def cexPlanTodos : List Todo :=
  [mkTodo "a" "alpha" false 0, mkTodo "b" "beta" false 1]

/-- A plan covering exactly the incomplete records of `cexPlanTodos` whose
suggested orders (1 and 3) are 1-based but not consecutive. -/
def cexPlanItems : List OptimizedItem :=
  [{ id := "a", title := "alpha", suggested_order := 1, suggested_due_at := none,
     suggested_remind := false, reason := none },
   { id := "b", title := "beta", suggested_order := 3, suggested_due_at := none,
     suggested_remind := false, reason := none }]

/-! ## Supporting lemmas -/

theorem isPrefixOf_true_iff (n : List Char) :
    ∀ h : List Char, n.isPrefixOf h = true ↔ ∃ q, h = n ++ q := by
  induction n with
  | nil => intro h; simp [List.isPrefixOf]
  | cons a as ih =>
    intro h
    cases h with
    | nil => simp [List.isPrefixOf]
    | cons b bs =>
      simp only [List.isPrefixOf, Bool.and_eq_true, beq_iff_eq, ih]
      constructor
      · rintro ⟨rfl, q, rfl⟩; exact ⟨q, rfl⟩
      · rintro ⟨q, hq⟩
        injection hq with h1 h2
        exact ⟨h1.symm, q, h2⟩

theorem jsIncludes_true_iff (needle : List Char) :
    ∀ hay : List Char, jsIncludes hay needle = true ↔ SubstrOf needle hay := by
  intro hay
  induction hay with
  | nil =>
    rw [jsIncludes]
    simp only [Bool.or_false, isPrefixOf_true_iff, SubstrOf]
    constructor
    · rintro ⟨q, hq⟩
      exact ⟨[], q, by simpa using hq⟩
    · rintro ⟨p, q, hpq⟩
      cases p with
      | nil => exact ⟨q, by simpa using hpq⟩
      | cons a as => simp at hpq
  | cons c t ih =>
    rw [jsIncludes]
    simp only [Bool.or_eq_true, isPrefixOf_true_iff, ih, SubstrOf]
    constructor
    · rintro (⟨q, hq⟩ | ⟨p, q, hpq⟩)
      · exact ⟨[], q, by simpa using hq⟩
      · exact ⟨c :: p, q, by simp [hpq]⟩
    · rintro ⟨p, q, hpq⟩
      cases p with
      | nil => exact Or.inl ⟨q, by simpa using hpq⟩
      | cons c' p' =>
        injection hpq with h1 h2
        exact Or.inr ⟨p', q, h2⟩

theorem string_data_nil_iff (s : String) : s.data = [] ↔ s = "" := by
  rw [String.ext_iff]

/-! ## C5 — Search filter -/

/-- C5: the search predicate of the filter pipeline (status `all`, no tag
selected) passes a record exactly when the lowercased title contains the
lowercased query as a substring.  (The claim's concrete example is wrong;
see the counterexample below.) -/
theorem search_filter_ci_substr (todo : Todo) (q : String) :
    todoPasses .all q none todo = true ↔
      SubstrOf (lowerL q.data) (lowerL todo.title.data) := by
  by_cases hq : q = ""
  · subst hq
    constructor
    · intro _
      exact ⟨[], lowerL todo.title.data, rfl⟩
    · intro _
      simp [todoPasses]
  · have hpass : todoPasses .all q none todo = searchMatches q todo.title := by
      cases hsm : searchMatches q todo.title <;> simp [todoPasses, hq, hsm]
    rw [hpass, searchMatches]
    exact jsIncludes_true_iff _ _

/-- C5 counterexample: for the query `"  Buy"` (leading spaces) and the
record titled `"buy milk"` the filter rejects the record — the leading
spaces are part of the query and the code performs no trimming, so the
claim's asserted `true` is wrong. -/
theorem search_filter_leading_spaces_cex :
    todoPasses .all "  Buy" none (mkTodo "t" "buy milk" false 0) = false := by
  decide

/-! ## C7 — Intake adapter fallback policy -/

/-- C7: in the single-task parse path, a decoded object without a truthy
`title` yields the first 200 characters of the raw input as title; a
non-array `tags` yields `[]`; a falsy or absent `due_at` yields `null`;
and `remind` is the boolean coercion of the decoded `remind` field. -/
theorem parse_fallback_policy (input : List Char) (parsed : JVal) :
    (jsTruthy (jsGet parsed "title".data) = false →
      (adaptParsed input parsed).title = .jstr (input.take 200)) ∧
    (isJArr (jsGet parsed "tags".data) = false →
      (adaptParsed input parsed).tags = .jarr []) ∧
    (jsTruthy (jsGet parsed "due_at".data) = false →
      (adaptParsed input parsed).due_at = .jnull) ∧
    (adaptParsed input parsed).remind = jsTruthy (jsGet parsed "remind".data) := by
  refine ⟨fun ht => ?_, fun htg => ?_, fun hd => ?_, rfl⟩
  · simp [adaptParsed, ht]
  · simp only [adaptParsed, htg, Bool.not_false, Bool.or_true, if_true]
    by_cases ht : jsTruthy (jsGet parsed "title".data) <;> simp [ht]
  · simp [adaptParsed, hd]

/-- Witness for C7 at the decoded object `{}` (every field absent) and
the raw input `"hello world"`. -/
theorem parse_fallback_policy_witness :
    (adaptParsed "hello world".data (.jobj [])).title = .jstr ("hello world".data.take 200) ∧
    (adaptParsed "hello world".data (.jobj [])).tags = .jarr [] ∧
    (adaptParsed "hello world".data (.jobj [])).due_at = .jnull ∧
    (adaptParsed "hello world".data (.jobj [])).remind = false :=
  ⟨(parse_fallback_policy "hello world".data (.jobj [])).1 rfl,
   (parse_fallback_policy "hello world".data (.jobj [])).2.1 rfl,
   (parse_fallback_policy "hello world".data (.jobj [])).2.2.1 rfl,
   (parse_fallback_policy "hello world".data (.jobj [])).2.2.2⟩

/-! ## C8 — Empty-collection short-circuits -/

/-- C8: `getDailyBrief` on an empty collection returns the canned
"no tasks" message without reaching the generation call, and
`getOptimizedPlan` on a collection with no incomplete records returns the
empty-items plan without reaching the generation call. -/
theorem empty_collection_short_circuit :
    getDailyBrief [] = .canned "No tasks yet. Add some to get your daily brief!" ∧
    ∀ (today : String) (todos : List Todo), (∀ t ∈ todos, t.completed = true) →
      getOptimizedPlan today todos =
        .canned { summary := "All done! No tasks to optimize.", items := [] } := by
  refine ⟨rfl, fun today todos h => ?_⟩
  have hfilter : todos.filter (fun t => !t.completed) = [] := by
    rw [List.filter_eq_nil_iff]
    intro t ht
    simp [h t ht]
  simp [getOptimizedPlan, hfilter]

/-- Witness for C8 on a concrete fully-completed collection. -/
theorem empty_collection_short_circuit_witness :
    getDailyBrief [] = .canned "No tasks yet. Add some to get your daily brief!" ∧
    getOptimizedPlan "2024-06-01" [mkTodo "c" "done" true 0] =
      .canned { summary := "All done! No tasks to optimize.", items := [] } :=
  ⟨empty_collection_short_circuit.1,
   empty_collection_short_circuit.2 "2024-06-01" [mkTodo "c" "done" true 0] (by decide)⟩

/-! ## C9 — Reorder frame condition -/

/-- C9: the writes issued by a reorder are order-column updates only, and
applying any reorder payload leaves `id`, `title`, `completed`,
`created_at`, `user_id`, `due_at`, `remind`, `reminded` and `tags` of
every record unchanged. -/
theorem reorder_frame_condition (todos : List Todo) (updates : List (String × Int)) :
    reorderTodos updates = .ok (updates.map (fun p => .updateOrderRow p.1 p.2)) ∧
    (applyOrderUpdates todos updates).map
        (fun t => (t.id, t.title, t.completed, t.created_at, t.user_id,
                   t.due_at, t.remind, t.reminded, t.tags)) =
      todos.map (fun t => (t.id, t.title, t.completed, t.created_at, t.user_id,
                           t.due_at, t.remind, t.reminded, t.tags)) := by
  refine ⟨rfl, ?_⟩
  unfold applyOrderUpdates
  rw [List.map_map]
  refine List.map_congr_left (fun t _ => ?_)
  simp only [Function.comp_apply]
  cases h : List.lookup t.id updates <;> simp [h]

/-! ## C10 — createTodo trims the title before inserting -/

/-- C10: a valid create input is inserted with the *trimmed* title; in
particular an all-whitespace title (which passes the 1..200 length
validation) is persisted as the empty string, violating the stored
record's non-empty-title constraint. -/
theorem create_trims_title (uid : String) (input : CreateInput)
    (hv : validCreate input = true) (hws : input.title.data.all jsWs = true) :
    createTodo (some uid) input =
      .ok [.insertRow (jsTrim input.title) uid (jsOrNull input.due_at)
            (input.remind.getD false) (input.tags.getD [])] ∧
    jsTrim input.title = "" ∧
    validStoredTitle (jsTrim input.title) = false := by
  have htrim : jsTrim input.title = "" := by
    have hall : ∀ c ∈ input.title.data, jsWs c = true := by
      simpa [List.all_eq_true] using hws
    have h1 : input.title.data.reverse.dropWhile jsWs = [] := by
      rw [List.dropWhile_eq_nil_iff]
      intro c hc
      exact hall c (List.mem_reverse.1 hc)
    have h2 : trimL input.title.data = [] := by
      simp [trimL, trimRightL, trimLeftL, h1]
    simp [jsTrim, h2]
  refine ⟨by simp [createTodo, hv], htrim, ?_⟩
  rw [htrim]
  decide

/-- Witness for C10 at the single-space title. -/
theorem create_trims_title_witness :
    validCreate { title := " ", due_at := none, remind := none, tags := none } = true ∧
    createTodo (some "u") { title := " ", due_at := none, remind := none, tags := none } =
      .ok [.insertRow "" "u" none false []] ∧
    validStoredTitle "" = false := by
  have h := create_trims_title "u"
    { title := " ", due_at := none, remind := none, tags := none }
    (by decide) (by decide)
  refine ⟨by decide, ?_, by decide⟩
  have : jsTrim " " = "" := h.2.1
  simpa [this] using h.1

theorem length_arrayMove (l : List α) (i j : Nat) :
    (arrayMove l i j).length = l.length := by
  unfold arrayMove
  cases h : l.get? i with
  | some x =>
    have hi : i < l.length := by
      rcases List.get?_eq_some.1 h with ⟨hlt, _⟩
      exact hlt
    simp [spliceInsert, spliceRemove]
    omega
  | none =>
    have hi : l.length ≤ i := List.get?_eq_none.1 h
    simp [spliceRemove]
    omega

/-! ## C3 — writes issued per drag gesture -/

/-- C3 (amended): one completed drag gesture issues exactly one reorder
mutation whose payload covers all `n` visible records, but `reorderTodos`
turns that payload into one order-update statement per record (`n`
gateway writes issued concurrently via `Promise.all`), not a single bulk
write. -/
theorem drag_reorder_one_write_per_item (view : List Todo) (a b : String)
    (hab : a ≠ b) :
    ∃ us, dragEndUpdates view a b = some us ∧
      us.length = view.length ∧
      reorderTodos us = .ok (us.map fun p => GatewayOp.updateOrderRow p.1 p.2) ∧
      (us.map fun p => GatewayOp.updateOrderRow p.1 p.2).length = view.length := by
  unfold dragEndUpdates
  rw [if_neg hab]
  refine ⟨_, rfl, ?_, rfl, ?_⟩ <;>
    simp [List.enum_length, length_arrayMove]

/-- Witness for C3 (amended) on a three-record view. -/
theorem drag_reorder_one_write_per_item_witness :
    ∃ us, dragEndUpdates exView "a" "c" = some us ∧
      us.length = exView.length ∧
      reorderTodos us = .ok (us.map fun p => GatewayOp.updateOrderRow p.1 p.2) ∧
      (us.map fun p => GatewayOp.updateOrderRow p.1 p.2).length = exView.length :=
  drag_reorder_one_write_per_item exView "a" "c" (by decide)

/-- C3 counterexample: a two-item reorder payload reaches the gateway as
two separate update statements, not one bulk write covering both order
assignments. -/
theorem reorder_bulk_write_cex :
    reorderTodos [("a", (0 : Int)), ("b", 1)] =
      .ok [GatewayOp.updateOrderRow "a" 0, GatewayOp.updateOrderRow "b" 1] ∧
    [GatewayOp.updateOrderRow "a" 0, GatewayOp.updateOrderRow "b" 1].length ≠ 1 :=
  ⟨rfl, by decide⟩

/-! ## C4 — validation before any network interaction -/

/-- C4 (amended): `createTodo`, `updateTodo`, `toggleTodo` and
`deleteTodo` reject invalid input with a validation error before any
gateway operation is emitted; `reorderTodos`, however, performs no
validation at all and forwards its payload (malformed ids included)
straight to the gateway. -/
theorem mutation_validation_before_io :
    (∀ (owner : Option String) (input : CreateInput), validCreate input = false →
      createTodo owner input = .error .validation) ∧
    (∀ input : UpdateInput, validUpdate input = false →
      updateTodo input = .error .validation) ∧
    (∀ (id : String) (c : Bool), isUuid id = false →
      toggleTodo id c = .error .validation) ∧
    (∀ id : String, isUuid id = false → deleteTodo id = .error .validation) ∧
    (∀ us, reorderTodos us = .ok (us.map fun p => GatewayOp.updateOrderRow p.1 p.2)) := by
  refine ⟨fun owner input h => ?_, fun input h => ?_, fun id c h => ?_,
    fun id h => ?_, fun us => rfl⟩
  · simp [createTodo, h]
  · simp [updateTodo, h]
  · simp [toggleTodo, h]
  · simp [deleteTodo, h]

/-- Witness for C4 (amended): concrete invalid inputs for each validated
entry point, and a malformed-id reorder that is still sent. -/
theorem mutation_validation_before_io_witness :
    createTodo (some "u") { title := "", due_at := none, remind := none, tags := none } =
      .error .validation ∧
    updateTodo { id := "nope", completed := none, title := none, due_at := none,
                 remind := none, reminded := none, tags := none, order := none } =
      .error .validation ∧
    toggleTodo "nope" true = .error .validation ∧
    deleteTodo "nope" = .error .validation ∧
    reorderTodos [("x", (0 : Int))] = .ok [GatewayOp.updateOrderRow "x" 0] :=
  ⟨mutation_validation_before_io.1 (some "u") _ (by decide),
   mutation_validation_before_io.2.1 _ (by decide),
   mutation_validation_before_io.2.2.1 "nope" true (by decide),
   mutation_validation_before_io.2.2.2.1 "nope" (by decide),
   mutation_validation_before_io.2.2.2.2 _⟩

/-- C4 counterexample: a reorder payload carrying an id that is not a
valid identifier is not rejected — the write is issued to the gateway
rather than failing with a validation error. -/
theorem reorder_skips_validation_cex :
    isUuid "not-a-uuid" = false ∧
    reorderTodos [("not-a-uuid", (0 : Int))] =
      .ok [GatewayOp.updateOrderRow "not-a-uuid" 0] :=
  ⟨by decide, rfl⟩

theorem get?_spliceInsert_self (l : List α) (j : Nat) (x : α) (hj : j ≤ l.length) :
    (spliceInsert l j x).get? j = some x := by
  unfold spliceInsert
  have hlen : (l.take j).length = j := by
    simp [List.length_take]
    omega
  rw [List.get?_append_right (by omega)]
  simp [hlen]

theorem splitAt_of_get? {l : List α} {i : Nat} {x : α} (hx : l.get? i = some x) :
    l = l.take i ++ x :: l.drop (i + 1) := by
  obtain ⟨hi, hget⟩ := List.get?_eq_some.1 hx
  have hdrop : l.drop i = l[i] :: l.drop (i + 1) := List.drop_eq_getElem_cons hi
  have hxi : l[i] = x := by
    rw [← hget]
    simp [List.get_eq_getElem]
  calc l = l.take i ++ l.drop i := (List.take_append_drop i l).symm
    _ = l.take i ++ x :: l.drop (i + 1) := by rw [hdrop, hxi]

theorem arrayMove_get_target (l : List α) {i j : Nat} (hi : i < l.length)
    (hj : j < l.length) : (arrayMove l i j).get? j = l.get? i := by
  obtain ⟨x, hget⟩ : ∃ x, l.get? i = some x := by
    cases h : l.get? i with
    | some x => exact ⟨x, rfl⟩
    | none => exact absurd (List.get?_eq_none.1 h) (by omega)
  rw [hget]
  unfold arrayMove
  rw [hget]
  apply get?_spliceInsert_self
  have : (spliceRemove l i).length = l.length - 1 := by
    simp [spliceRemove]
    omega
  omega

theorem arrayMove_perm (l : List α) {i : Nat} (j : Nat) (hi : i < l.length) :
    (arrayMove l i j).Perm l := by
  obtain ⟨x, hget⟩ : ∃ x, l.get? i = some x := by
    cases h : l.get? i with
    | some x => exact ⟨x, rfl⟩
    | none => exact absurd (List.get?_eq_none.1 h) (by omega)
  unfold arrayMove
  rw [hget]
  have h1 : (spliceInsert (spliceRemove l i) j x).Perm (x :: spliceRemove l i) := by
    unfold spliceInsert
    have hmid := @List.perm_middle _ x ((spliceRemove l i).take j)
      ((spliceRemove l i).drop j)
    rwa [List.take_append_drop] at hmid
  have h2 : (x :: spliceRemove l i).Perm l := by
    unfold spliceRemove
    have hmid := (@List.perm_middle _ x (l.take i) (l.drop (i + 1))).symm
    rwa [← splitAt_of_get? hget] at hmid
  exact h1.trans h2

theorem arrayMove_filter (l : List α) (p : α → Bool) {i : Nat} (j : Nat) {x : α}
    (hx : l.get? i = some x) (hp : p x = false) :
    (arrayMove l i j).filter p = l.filter p := by
  unfold arrayMove
  rw [hx]
  have hm : (spliceRemove l i).filter p = l.filter p := by
    conv_rhs => rw [splitAt_of_get? hx]
    unfold spliceRemove
    rw [List.filter_append, List.filter_append, List.filter_cons, hp]
    simp
  unfold spliceInsert
  rw [List.filter_append, List.filter_cons, hp]
  simp only [Bool.false_eq_true, if_false]
  rw [← List.filter_append, List.take_append_drop, hm]

/-! ## C2 — Drag reorder: contiguous 0-based orders, array-move semantics -/

/-- C2: a drag gesture on a view in which both the moved id and the
target id occur issues a bulk payload assigning to the `n` visible
records exactly the orders `0..n-1`; the moved record lands at the
target's index, the remaining records keep their relative order
(array-move semantics). -/
theorem drag_reorder_contiguous (view : List Todo) (a b : String)
    (hab : a ≠ b) (ha : ∃ t ∈ view, t.id = a) (hb : ∃ t ∈ view, t.id = b) :
    ∃ us, dragEndUpdates view a b = some us ∧
      us.map Prod.snd = (List.range view.length).map Int.ofNat ∧
      us.length = view.length ∧
      (arrayMove view (view.findIdx fun t => t.id == a)
          (view.findIdx fun t => t.id == b)).get?
          (view.findIdx fun t => t.id == b) =
        view.get? (view.findIdx fun t => t.id == a) ∧
      (arrayMove view (view.findIdx fun t => t.id == a)
          (view.findIdx fun t => t.id == b)).Perm view ∧
      (arrayMove view (view.findIdx fun t => t.id == a)
          (view.findIdx fun t => t.id == b)).filter (fun t => t.id != a) =
        view.filter (fun t => t.id != a) := by
  have hi : view.findIdx (fun t => t.id == a) < view.length := by
    rw [List.findIdx_lt_length]
    obtain ⟨t, htm, hti⟩ := ha
    exact ⟨t, htm, by simp [hti]⟩
  have hj : view.findIdx (fun t => t.id == b) < view.length := by
    rw [List.findIdx_lt_length]
    obtain ⟨t, htm, hti⟩ := hb
    exact ⟨t, htm, by simp [hti]⟩
  obtain ⟨x, hgetx⟩ : ∃ x, view.get? (view.findIdx fun t => t.id == a) = some x := by
    cases h : view.get? (view.findIdx fun t => t.id == a) with
    | some x => exact ⟨x, rfl⟩
    | none => exact absurd (List.get?_eq_none.1 h) (by omega)
  have hxa : x.id = a := by
    obtain ⟨hlt, hg⟩ := List.get?_eq_some.1 hgetx
    have hp := List.findIdx_get (w := hlt)
    rw [hg] at hp
    exact eq_of_beq hp
  refine ⟨_, by rw [dragEndUpdates, if_neg hab], ?_, ?_, ?_, ?_, ?_⟩
  · rw [List.map_map]
    have hcomp : (Prod.snd ∘ fun p : Nat × Todo => (p.2.id, (p.1 : Int))) =
        (Int.ofNat ∘ Prod.fst) := rfl
    rw [hcomp, ← List.map_map, List.enum_map_fst, length_arrayMove]
  · simp [List.enum_length, length_arrayMove]
  · exact arrayMove_get_target view hi hj
  · exact arrayMove_perm view _ hi
  · exact arrayMove_filter view _ _ hgetx (by simp [hxa])

/-- Witness for C2: dragging record `"a"` onto record `"c"` in a
three-record view. -/
theorem drag_reorder_contiguous_witness :
    ∃ us, dragEndUpdates exView "a" "c" = some us ∧
      us.map Prod.snd = (List.range exView.length).map Int.ofNat := by
  obtain ⟨us, h1, h2, -⟩ :=
    drag_reorder_contiguous exView "a" "c" (by decide) (by decide) (by decide)
  exact ⟨us, h1, h2⟩

theorem lookup_map_self {us : List (String × Int)}
    (hn : (us.map Prod.fst).Nodup) :
    us.map (fun p => (List.lookup p.1 us).getD 0) = us.map Prod.snd := by
  induction us with
  | nil => rfl
  | cons hd tl ih =>
    obtain ⟨k, v⟩ := hd
    rw [List.map_cons, List.nodup_cons] at hn
    obtain ⟨hk, htl⟩ := hn
    rw [List.map_cons, List.map_cons]
    congr 1
    · simp [List.lookup]
    · rw [← ih htl]
      apply List.map_congr_left
      intro p hp
      have hne : p.1 ≠ k := by
        intro he
        have hmm : p.1 ∈ tl.map Prod.fst := List.mem_map_of_mem Prod.fst hp
        rw [he] at hmm
        exact hk hmm
      simp [List.lookup, beq_eq_false_iff_ne.2 hne]

theorem lookup_of_mem {us : List (String × Int)} {s : String}
    (h : s ∈ us.map Prod.fst) : ∃ o, List.lookup s us = some o := by
  induction us with
  | nil => simp at h
  | cons hd tl ih =>
    obtain ⟨k, v⟩ := hd
    rw [List.map_cons, List.mem_cons] at h
    by_cases he : s = k
    · exact ⟨v, by simp [List.lookup, he]⟩
    · obtain ⟨o, ho⟩ := ih (h.resolve_left he)
      exact ⟨o, by simp [List.lookup, beq_eq_false_iff_ne.2 he, ho]⟩

/-- Applying a bulk order payload whose ids are a duplicate-free
rearrangement of the collection's ids turns the collection's orders into
exactly the payload's order values (as a multiset). -/
theorem apply_orders_perm {todos : List Todo} {us : List (String × Int)}
    (h : (todos.map Todo.id).Perm (us.map Prod.fst))
    (hn : (us.map Prod.fst).Nodup) :
    ((applyOrderUpdates todos us).map Todo.order).Perm (us.map Prod.snd) := by
  have hstep1 : (applyOrderUpdates todos us).map Todo.order =
      todos.map (fun t => (List.lookup t.id us).getD 0) := by
    unfold applyOrderUpdates
    rw [List.map_map]
    apply List.map_congr_left
    intro t ht
    have hmem : t.id ∈ us.map Prod.fst := h.mem_iff.1 (List.mem_map_of_mem Todo.id ht)
    obtain ⟨o, ho⟩ := lookup_of_mem hmem
    simp [Function.comp, ho]
  rw [hstep1,
    show (fun t : Todo => (List.lookup t.id us).getD 0) =
      ((fun s => (List.lookup s us).getD 0) ∘ Todo.id) from rfl,
    ← List.map_map]
  refine (h.map _).trans ?_
  rw [List.map_map,
    show ((fun s => (List.lookup s us).getD 0) ∘ Prod.fst) =
      (fun p : String × Int => (List.lookup p.1 us).getD 0) from rfl,
    lookup_map_self hn]

/-- The sorted suggested keys of a plan whose keys are a permutation of
`0..k-1` are exactly `0, 1, …, k-1` in order. -/
theorem sorted_keys_eq_range {updates : List PlanUpdate}
    (hkeys : (updates.map planKey).Perm ((List.range updates.length).map Int.ofNat)) :
    (updates.insertionSort (fun a b => planKey a ≤ planKey b)).map planKey =
      (List.range updates.length).map Int.ofNat := by
  haveI hTot : IsTotal PlanUpdate (fun a b => planKey a ≤ planKey b) :=
    ⟨fun a b => le_total _ _⟩
  haveI hTrans : IsTrans PlanUpdate (fun a b => planKey a ≤ planKey b) :=
    ⟨fun _ _ _ h1 h2 => le_trans h1 h2⟩
  apply List.eq_of_perm_of_sorted (r := ((· ≤ ·) : Int → Int → Prop))
  · exact (((List.perm_insertionSort _ updates).map planKey).trans hkeys)
  · have hs := List.sorted_insertionSort (fun a b => planKey a ≤ planKey b) updates
    unfold List.Sorted at hs ⊢
    rw [List.pairwise_map]
    exact hs
  · unfold List.Sorted
    rw [List.pairwise_map]
    exact (List.pairwise_lt_range updates.length).imp
      (fun h => Int.ofNat_le.2 (Nat.le_of_lt h))

/-- Unfolding of `applyOptimizeOrders` for a non-empty collection. -/
theorem applyOptimizeOrders_eq (todos : List Todo) (updates : List PlanUpdate)
    (h : todos.length ≠ 0) :
    applyOptimizeOrders todos updates =
      (updates.insertionSort (fun a b => planKey a ≤ planKey b)).map
          (fun u => (u.id, planKey u))
        ++ ((todos.filter (fun t => t.completed)).map Todo.id).enum.map
            (fun p => (p.2, ((updates.map PlanUpdate.id).length : Int) + p.1)) := by
  unfold applyOptimizeOrders
  rw [if_neg h]

/-! ## C1 — Plan merge -/

/-- C1 (amended): when the plan covers exactly the incomplete records and
its suggested orders are a permutation of `1..k` (so the panel's 0-based
order values `suggestedOrder - 1` are a permutation of `0..k-1`), the
merged payload assigns orders `0..k-1` to the incomplete records
positionally in ascending suggested order, appends the completed records
with orders `k..k+m-1` in their prior relative order, and the full
collection's resulting orders are exactly `0..k+m-1`.  (Without the
permutation hypothesis the code writes the raw `order ?? 0` values, not
positional indices — see the counterexample.) -/
theorem plan_merge_orders (todos : List Todo) (updates : List PlanUpdate)
    (hids : (todos.map Todo.id).Nodup)
    (hcover : (updates.map PlanUpdate.id).Perm
      ((todos.filter fun t => !t.completed).map Todo.id))
    (hkeys : (updates.map planKey).Perm
      ((List.range updates.length).map Int.ofNat)) :
    (applyOptimizeOrders todos updates).map Prod.snd =
      (List.range (updates.length +
        (todos.filter fun t => t.completed).length)).map Int.ofNat ∧
    ((applyOrderUpdates todos (applyOptimizeOrders todos updates)).map
        Todo.order).Perm
      ((List.range (updates.length +
        (todos.filter fun t => t.completed).length)).map Int.ofNat) ∧
    ((applyOptimizeOrders todos updates).drop updates.length).map Prod.fst =
      (todos.filter fun t => t.completed).map Todo.id ∧
    ((applyOptimizeOrders todos updates).take updates.length).map Prod.fst =
      (updates.insertionSort fun a b => planKey a ≤ planKey b).map PlanUpdate.id := by
  by_cases h0 : todos.length = 0
  · have htodos : todos = [] := List.length_eq_zero.1 h0
    subst htodos
    have hupd : updates = [] := by
      have hnil : (updates.map PlanUpdate.id).Perm [] := by simpa using hcover
      simpa using hnil.eq_nil
    subst hupd
    simp [applyOptimizeOrders, applyOrderUpdates]
  · have hre := applyOptimizeOrders_eq todos updates h0
    have hslen : (updates.insertionSort
        (fun a b => planKey a ≤ planKey b)).length = updates.length :=
      List.length_insertionSort _ _
    have hclen : ((todos.filter (fun t => t.completed)).map Todo.id).length =
        (todos.filter fun t => t.completed).length := List.length_map _ _
    have hA : (applyOptimizeOrders todos updates).map Prod.snd =
        (List.range (updates.length +
          (todos.filter fun t => t.completed).length)).map Int.ofNat := by
      rw [hre, List.map_append, List.map_map, List.map_map,
        show (Prod.snd ∘ fun u : PlanUpdate => (u.id, planKey u)) = planKey from rfl,
        sorted_keys_eq_range hkeys,
        show (Prod.snd ∘ fun p : Nat × String =>
            (p.2, ((updates.map PlanUpdate.id).length : Int) + (p.1 : Int))) =
          ((fun n : Nat => ((updates.map PlanUpdate.id).length : Int) + (n : Int))
            ∘ Prod.fst) from rfl,
        ← List.map_map, List.enum_map_fst, hclen,
        List.range_add, List.map_append, List.map_map]
      congr 1
      apply List.map_congr_left
      intro n _
      simp only [Function.comp_apply, List.length_map]
      rw [show Int.ofNat (updates.length + n) = ((updates.length + n : Nat) : Int) from rfl]
      push_cast
      ring
    have hlen' : updates.length =
        ((updates.insertionSort (fun a b => planKey a ≤ planKey b)).map
          (fun u => (u.id, planKey u))).length := by
      rw [List.length_map, hslen]
    have htake : (applyOptimizeOrders todos updates).take updates.length =
        (updates.insertionSort (fun a b => planKey a ≤ planKey b)).map
          (fun u => (u.id, planKey u)) := by
      rw [hre, hlen', List.take_left]
    have hdrop : (applyOptimizeOrders todos updates).drop updates.length =
        ((todos.filter (fun t => t.completed)).map Todo.id).enum.map
          (fun p => (p.2, ((updates.map PlanUpdate.id).length : Int) + (p.1 : Int))) := by
      rw [hre, hlen', List.drop_left]
    refine ⟨hA, ?_, ?_, ?_⟩
    · have hfst : (applyOptimizeOrders todos updates).map Prod.fst =
          (updates.insertionSort (fun a b => planKey a ≤ planKey b)).map PlanUpdate.id
            ++ (todos.filter (fun t => t.completed)).map Todo.id := by
        rw [hre, List.map_append, List.map_map, List.map_map,
          show (Prod.fst ∘ fun u : PlanUpdate => (u.id, planKey u)) =
            PlanUpdate.id from rfl,
          show (Prod.fst ∘ fun p : Nat × String =>
              (p.2, ((updates.map PlanUpdate.id).length : Int) + (p.1 : Int))) =
            Prod.snd from rfl,
          List.enum_map_snd]
      have hsplit : ((todos.filter fun t => !t.completed).map Todo.id ++
          (todos.filter fun t => t.completed).map Todo.id).Perm (todos.map Todo.id) := by
        have hfp := List.filter_append_perm (fun t => !t.completed) todos
        have hfc : todos.filter (fun t => !(!t.completed)) =
            todos.filter (fun t => t.completed) :=
          List.filter_congr (fun t _ => by simp)
        rw [hfc] at hfp
        have hmapped := hfp.map Todo.id
        rwa [List.map_append] at hmapped
      have hperm2 : ((applyOptimizeOrders todos updates).map Prod.fst).Perm
          (todos.map Todo.id) := by
        rw [hfst]
        exact (List.Perm.append
          (((List.perm_insertionSort _ updates).map PlanUpdate.id).trans hcover)
          (List.Perm.refl _)).trans hsplit
      have hnodup : ((applyOptimizeOrders todos updates).map Prod.fst).Nodup :=
        hperm2.nodup_iff.2 hids
      have hfin := apply_orders_perm hperm2.symm hnodup
      rwa [hA] at hfin
    · rw [hdrop, List.map_map,
        show (Prod.fst ∘ fun p : Nat × String =>
            (p.2, ((updates.map PlanUpdate.id).length : Int) + (p.1 : Int))) =
          Prod.snd from rfl,
        List.enum_map_snd]
    · rw [htake, List.map_map]
      rfl

/-- Witness for C1 (amended): three records (two incomplete, one
completed) and a plan with suggested orders `1, 2`. -/
theorem plan_merge_orders_witness :
    (applyOptimizeOrders exPlanTodos (aiPanelUpdates exPlanItems)).map Prod.snd =
      (List.range ((aiPanelUpdates exPlanItems).length +
        (exPlanTodos.filter fun t => t.completed).length)).map Int.ofNat ∧
    ((applyOrderUpdates exPlanTodos
        (applyOptimizeOrders exPlanTodos (aiPanelUpdates exPlanItems))).map
        Todo.order).Perm
      ((List.range ((aiPanelUpdates exPlanItems).length +
        (exPlanTodos.filter fun t => t.completed).length)).map Int.ofNat) := by
  obtain ⟨h1, h2, -, -⟩ := plan_merge_orders exPlanTodos (aiPanelUpdates exPlanItems)
    (by decide) (by decide) (by decide)
  exact ⟨h1, h2⟩

/-- C1 counterexample: a plan covering exactly the two incomplete records
with 1-based suggested orders `1` and `3` produces final orders `0` and
`2` — the code writes the suggested value (`order ?? 0`), not the
positional index, so the collection's orders are not `0..k+m-1`. -/
theorem plan_merge_orders_cex :
    (applyOrderUpdates cexPlanTodos
        (applyOptimizeOrders cexPlanTodos (aiPanelUpdates cexPlanItems))).map
        Todo.order = [0, 2] ∧
    ¬ (((applyOrderUpdates cexPlanTodos
        (applyOptimizeOrders cexPlanTodos (aiPanelUpdates cexPlanItems))).map
        Todo.order).Perm ((List.range 2).map Int.ofNat)) := by
  constructor
  · decide
  · decide

/-! ## C6 — fence stripping and decode round-trip -/

theorem isSuffixOf_true_iff (n h : List Char) :
    n.isSuffixOf h = true ↔ ∃ p, h = p ++ n := by
  show n.reverse.isPrefixOf h.reverse = true ↔ _
  rw [isPrefixOf_true_iff]
  constructor
  · rintro ⟨q, hq⟩
    refine ⟨q.reverse, ?_⟩
    have := congrArg List.reverse hq
    simpa [List.reverse_append] using this
  · rintro ⟨p, rfl⟩
    exact ⟨p.reverse, by rw [List.reverse_append]⟩

theorem dropWhile_idem_jsWs (l : List Char) :
    List.dropWhile jsWs (List.dropWhile jsWs l) = List.dropWhile jsWs l := by
  induction l with
  | nil => rfl
  | cons c t ih =>
    by_cases h : jsWs c
    · rw [List.dropWhile_cons_of_pos h, ih]
    · rw [List.dropWhile_cons_of_neg h, List.dropWhile_cons_of_neg h]

theorem trimRightL_idem (l : List Char) : trimRightL (trimRightL l) = trimRightL l := by
  unfold trimRightL
  rw [List.reverse_reverse, dropWhile_idem_jsWs]

theorem trimRightL_append_ws (u : List Char) :
    trimRightL (u ++ ['\n']) = trimRightL u := by
  unfold trimRightL
  rw [List.reverse_append]
  simp only [List.reverse_cons, List.reverse_nil, List.nil_append, List.singleton_append]
  rw [List.dropWhile_cons_of_pos (by decide : jsWs '\n' = true)]

theorem trimLeft_trimRight_trimLeft (s : List Char) :
    trimLeftL (trimRightL (trimLeftL s)) = trimLeftL (trimRightL s) := by
  induction s with
  | nil => rfl
  | cons c t ih =>
    by_cases hc : jsWs c
    · rw [show trimLeftL (c :: t) = trimLeftL t from List.dropWhile_cons_of_pos hc]
      by_cases hall : List.dropWhile jsWs t.reverse = []
      · have htall : ∀ x ∈ t, jsWs x = true := by
          intro x hx
          exact (List.dropWhile_eq_nil_iff.1 hall) x (List.mem_reverse.2 hx)
        have h1 : trimRightL (c :: t) = [] := by
          unfold trimRightL
          rw [show (c :: t).reverse = t.reverse ++ [c] from by simp,
            List.dropWhile_append, hall]
          simp [hc]
        have h2 : trimLeftL t = [] := by
          unfold trimLeftL
          rw [List.dropWhile_eq_nil_iff]
          exact htall
        rw [h1, h2]
        rfl
      · have h1 : trimRightL (c :: t) = c :: trimRightL t := by
          unfold trimRightL
          rw [show (c :: t).reverse = t.reverse ++ [c] from by simp,
            List.dropWhile_append]
          rw [if_neg (by simp [hall])]
          simp
        rw [h1,
          show trimLeftL (c :: trimRightL t) = trimLeftL (trimRightL t) from
            List.dropWhile_cons_of_pos hc, ih]
    · rw [show trimLeftL (c :: t) = c :: t from List.dropWhile_cons_of_neg hc]

theorem stripOpen_wrap (s : List Char) :
    stripJsonOpenFence (wrapJsonFence s) = trimLeftL (s ++ "\n```".data) := by
  have hw : wrapJsonFence s = "```json".data ++ ('\n' :: (s ++ "\n```".data)) := by
    unfold wrapJsonFence
    rw [show "```json\n".data = "```json".data ++ ['\n'] from rfl]
    simp [List.append_assoc]
  unfold stripJsonOpenFence
  rw [hw, if_pos ((isPrefixOf_true_iff _ _).2 ⟨_, rfl⟩),
    show (7 : Nat) = ("```json".data).length from rfl, List.drop_left]
  exact List.dropWhile_cons_of_pos (by decide)

theorem cleanFence_wrap (s : List Char) :
    cleanFence (wrapJsonFence s) = trimL s := by
  unfold cleanFence
  rw [stripOpen_wrap]
  by_cases hu : trimLeftL s = []
  · have hws : (List.dropWhile jsWs s).isEmpty = true := by
      rw [List.isEmpty_iff]
      exact hu
    have h1 : trimLeftL (s ++ "\n```".data) = "```".data := by
      unfold trimLeftL
      rw [List.dropWhile_append, if_pos hws]
      decide
    have hsall : ∀ x ∈ s, jsWs x = true := List.dropWhile_eq_nil_iff.1 hu
    have h2 : trimRightL s = [] := by
      unfold trimRightL
      rw [show List.dropWhile jsWs s.reverse = [] from
        List.dropWhile_eq_nil_iff.2 (fun x hx => hsall x (List.mem_reverse.1 hx))]
      rfl
    rw [h1]
    show trimL (stripCloseFence "```".data) = trimL s
    rw [show stripCloseFence "```".data = [] from by decide]
    unfold trimL
    rw [h2]
    rfl
  · have hne : (List.dropWhile jsWs s).isEmpty = false := by
      rw [Bool.eq_false_iff]
      intro hcontra
      exact hu (List.isEmpty_iff.1 hcontra)
    have h1 : trimLeftL (s ++ "\n```".data) = trimLeftL s ++ "\n```".data := by
      unfold trimLeftL
      rw [List.dropWhile_append, hne]
      simp
    rw [h1]
    have h2 : stripCloseFence (trimLeftL s ++ "\n```".data) =
        trimRightL (trimLeftL s) := by
      unfold stripCloseFence
      have hsuf : ("```".data.isSuffixOf (trimLeftL s ++ "\n```".data)) = true := by
        rw [isSuffixOf_true_iff]
        exact ⟨trimLeftL s ++ ['\n'], by simp⟩
      rw [if_pos hsuf]
      have hlen : (trimLeftL s ++ "\n```".data).length - 3 = (trimLeftL s).length + 1 := by
        simp
      rw [hlen,
        show ("\n```".data) = ['\n'] ++ "```".data from rfl, ← List.append_assoc,
        show (trimLeftL s).length + 1 = (trimLeftL s ++ ['\n']).length from by simp,
        List.take_left, trimRightL_append_ws]
    rw [h2]
    unfold trimL
    rw [trimRightL_idem]
    exact trimLeft_trimRight_trimLeft s

theorem cleanFence_id (s : List Char)
    (h1 : "```json".data.isPrefixOf s = false)
    (h2 : "```".data.isSuffixOf s = false) :
    cleanFence s = trimL s := by
  simp [cleanFence, stripJsonOpenFence, stripCloseFence, h1, h2]

/-- C6 (amended): a generation response wrapped in a ` ```json ` fence
decodes to the same value as the bare text, provided the bare text does
not itself begin with the ` ```json ` opener or end in a ` ``` ` fence.
The regex only strips a leading fence when it carries the `json` tag, so
a plain ` ``` ` opener is not removed — see the counterexample. -/
theorem fence_decode_roundtrip (s : List Char)
    (h1 : "```json".data.isPrefixOf s = false)
    (h2 : "```".data.isSuffixOf s = false) :
    parseJson (wrapJsonFence s) = parseJson s := by
  unfold parseJson
  rw [cleanFence_wrap, cleanFence_id s h1 h2]

/-- Witness for C6 (amended) at the JSON text `{"a":1}`. -/
theorem fence_decode_roundtrip_witness :
    ("```json".data.isPrefixOf "\x7b\"a\":1\x7d".data) = false ∧
    ("```".data.isSuffixOf "\x7b\"a\":1\x7d".data) = false ∧
    parseJson (wrapJsonFence "\x7b\"a\":1\x7d".data) = parseJson "\x7b\"a\":1\x7d".data :=
  ⟨by decide, by decide, fence_decode_roundtrip _ (by decide) (by decide)⟩

/-- C6 counterexample: the empty object wrapped in a *plain*
triple-backtick fence fails to decode (the leading fence is not
stripped because it lacks the `json` tag), while the bare text decodes
to the empty object. -/
theorem fence_decode_roundtrip_cex :
    parseJson (wrapPlainFence "\x7b\x7d".data) = none ∧
    parseJson "\x7b\x7d".data = some (JVal.jobj []) ∧
    (none : Option JVal) ≠ some (JVal.jobj []) := by
  refine ⟨rfl, rfl, by simp⟩

end TodoApp
